import Mathlib

/-!
Shallow embedding of the YouTube channel scraper (src/scrapperv1.py) and proofs
about its specified behaviour.

Modelling conventions, used throughout:

- Python strings that are inspected character by character (duration encodings,
  publication timestamps, year keys) are embedded as `List Char`.  Opaque
  identifiers (video ids, page tokens) stay `String`.
- Python `dict`s are embedded as association lists in insertion order, which is
  exactly the iteration order of a Python dict.  `dictInsert` models
  `d[k] = v` (overwrite in place, or append a fresh key at the end) and
  `dictLookup` models `d[k]` / `d.get(k)`.
- A remote call that may raise `HttpError` is modelled as a value of
  `Except Unit β`: `.error ()` is a raised `HttpError` (always caught by the
  scraper), `.ok` a successful response.  The response payload carries exactly
  the fields the scraper reads.
- An exception that the scraper does NOT catch (`ValueError` from `int`,
  `IndexError` from `[0][0]`) is modelled by an `Option` result of the embedded
  function: `none` means the Python function raises instead of returning.
- `time.sleep`, logging and `print` calls have no semantic effect on the
  returned data and are dropped.
- Machine integers do not overflow here (Python ints are unbounded), so
  numeric fields are `Int` / `Nat` with no wrap-around.
-/

namespace Scrapper

/-! ## Python string and dict primitives -/

/-- Python `s.find(c)`: the index of the first occurrence of `c` in `s`, with
`none` standing for the `-1` returned when `c` is absent. -/
def pyFind (c : Char) : List Char → Option Nat
  | [] => none
  | x :: l => if x = c then some 0 else (pyFind c l).map (· + 1)

/-- Whitespace characters stripped by Python `int(str)` before parsing (the
common ASCII whitespace; the exact set does not matter for any claim). -/
def isPySpace (c : Char) : Bool :=
  c = ' ' || c = '\t' || c = '\n' || c = '\r'

/-- Strip leading and trailing whitespace, as Python `int(str)` does. -/
def pyTrim (l : List Char) : List Char :=
  ((l.dropWhile isPySpace).reverse.dropWhile isPySpace).reverse

/-- Numeric value of a list of decimal digit characters. -/
def digitsVal (l : List Char) : Nat :=
  l.foldl (fun acc c => 10 * acc + (c.toNat - 48)) 0

/-- True when `l` is a nonempty run of decimal digits. -/
def isDigits (l : List Char) : Bool :=
  !l.isEmpty && l.all Char.isDigit

/-- Python `int(s)` on a string: strips surrounding whitespace, accepts an
optional sign followed by a nonempty digit run, and raises `ValueError`
(modelled as `none`) otherwise.  (Python additionally allows underscore digit
grouping, which no claim depends on and which is not modelled.) -/
def pyInt (l : List Char) : Option Int :=
  match pyTrim l with
  | [] => none
  | c :: r =>
    if c = '-' then (if isDigits r then some (-(digitsVal r : Int)) else none)
    else if c = '+' then (if isDigits r then some ((digitsVal r : Int)) else none)
    else if isDigits (c :: r) then some ((digitsVal (c :: r) : Int)) else none

/-- Python dict assignment `d[k] = v` on an association list in insertion
order: overwrite an existing key in place, otherwise append the new key. -/
def dictInsert {κ β : Type} [DecidableEq κ] (k : κ) (v : β) :
    List (κ × β) → List (κ × β)
  | [] => [(k, v)]
  | (k2, v2) :: rest =>
    if k2 = k then (k, v) :: rest else (k2, v2) :: dictInsert k v rest

/-- Python dict lookup `d.get(k)` on an association list. -/
def dictLookup {κ β : Type} [DecidableEq κ] (d : List (κ × β)) (k : κ) :
    Option β :=
  match d with
  | [] => none
  | (k2, v) :: rest => if k2 = k then some v else dictLookup rest k

/-! ## DurationParser: `parse_duration` (src/scrapperv1.py lines 340-379)

The Python body handles each unit marker with the same three lines
(`find`, `int` of the prefix, slice off the consumed span); `extractUnit` is
that step.  For the final marker `S` the Python code does not re-slice the
string, but the remainder is dead there, so using the same step is faithful. -/

/-- One unit-marker step of `parse_duration`: look for `marker`; when found,
convert the prefix before it with `int` (which may raise) and drop the
consumed span; when absent, contribute `0` and leave the string unchanged. -/
def extractUnit (s : List Char) (marker : Char) : Option (Int × List Char) :=
  match pyFind marker s with
  | some p =>
    match pyInt (s.take p) with
    | some n => some (n, s.drop (p + 1))
    | none => none
  | none => some (0, s)

/-- `parse_duration(duration_iso)`: strip the two-character `PT` prefix, then
extract hours, minutes and seconds in that order; `none` models an uncaught
`ValueError` raised by `int` on a malformed numeric prefix. -/
def parse_duration (duration_iso : List Char) : Option Int :=
  let time_str := duration_iso.drop 2
  match extractUnit time_str 'H' with
  | none => none
  | some (hours, t1) =>
    match extractUnit t1 'M' with
    | none => none
    | some (minutes, t2) =>
      match extractUnit t2 'S' with
      | none => none
      | some (seconds, _) => some (hours * 3600 + minutes * 60 + seconds)

/-! Spec-side description of the well-formed duration format: an optional
component per unit, each a digit run followed by its marker. -/

/-- The characters contributed by one optional unit component. -/
def unitComp : Option (List Char) → Char → List Char
  | none, _ => []
  | some d, m => d ++ [m]

/-- The numeric value contributed by one optional unit component. -/
def unitVal : Option (List Char) → Nat
  | none => 0
  | some d => digitsVal d

/-- A unit component is well formed when, if present, its numeral is a
nonempty digit run. -/
def okComp : Option (List Char) → Bool
  | none => true
  | some d => isDigits d

/-- A duration string in the format of the spec: the fixed prefix, then
optional hour, minute and second components in that order. -/
def encodeDuration (hc mc sc : Option (List Char)) : List Char :=
  'P' :: 'T' :: (unitComp hc 'H' ++ (unitComp mc 'M' ++ unitComp sc 'S'))

/-! ### Lemmas about the duration parser -/

theorem pyFind_not_mem {c : Char} : ∀ {l : List Char}, c ∉ l → pyFind c l = none
  | [], _ => rfl
  | x :: l, h => by
    have hx : ¬x = c := fun hxc => h (hxc ▸ List.mem_cons_self x l)
    have hl : c ∉ l := fun hm => h (List.mem_cons_of_mem x hm)
    simp [pyFind, hx, pyFind_not_mem hl]

theorem pyFind_append {c : Char} {rest : List Char} :
    ∀ {d : List Char}, c ∉ d → pyFind c (d ++ c :: rest) = some d.length
  | [], _ => by simp [pyFind]
  | x :: d, h => by
    have hx : ¬x = c := fun hxc => h (hxc ▸ List.mem_cons_self x d)
    have hd : c ∉ d := fun hm => h (List.mem_cons_of_mem x hm)
    simp [pyFind, hx, pyFind_append hd]

theorem dropWhile_eq_self_of_all {p : Char → Bool} :
    ∀ {l : List Char}, (∀ x ∈ l, p x = false) → l.dropWhile p = l
  | [], _ => rfl
  | x :: l, h => by
    simp [List.dropWhile, h x (List.mem_cons_self x l)]

theorem not_space_of_digit {c : Char} (h : c.isDigit = true) :
    isPySpace c = false := by
  rcases hsp : isPySpace c with _ | _
  · rfl
  · exfalso
    simp only [isPySpace, Bool.or_eq_true, decide_eq_true_eq] at hsp
    rcases hsp with ((rfl | rfl) | rfl) | rfl <;> revert h <;> decide

theorem pyTrim_digits {d : List Char} (hd : ∀ x ∈ d, x.isDigit = true) :
    pyTrim d = d := by
  have hsp : ∀ x ∈ d, isPySpace x = false := fun x hx =>
    not_space_of_digit (hd x hx)
  rw [pyTrim, dropWhile_eq_self_of_all hsp,
    dropWhile_eq_self_of_all (fun x hx => hsp x (List.mem_reverse.mp hx)),
    List.reverse_reverse]

theorem pyInt_digits {d : List Char} (hne : d ≠ [])
    (hd : ∀ x ∈ d, x.isDigit = true) : pyInt d = some ((digitsVal d : Int)) := by
  rcases d with _ | ⟨c, r⟩
  · exact absurd rfl hne
  · have hc : c.isDigit = true := hd c (List.mem_cons_self c r)
    have hcm : ¬c = '-' := by rintro rfl; simp at hc
    have hcp : ¬c = '+' := by rintro rfl; simp at hc
    have hdig : isDigits (c :: r) = true := by
      simp only [isDigits, List.isEmpty_cons, Bool.not_false, Bool.true_and,
        List.all_eq_true]
      intro x hx
      exact hd x hx
    unfold pyInt
    rw [pyTrim_digits hd]
    simp [hcm, hcp, hdig]

theorem extractUnit_found (rest : List Char) {d : List Char} {m : Char}
    (hne : d ≠ []) (hd : ∀ x ∈ d, x.isDigit = true) (hm : m.isDigit = false) :
    extractUnit (d ++ m :: rest) m = some ((digitsVal d : Int), rest) := by
  have hnm : m ∉ d := fun hmem => by rw [hd m hmem] at hm; cases hm
  have htake : (d ++ m :: rest).take d.length = d := List.take_left d (m :: rest)
  have hdrop : (d ++ m :: rest).drop (d.length + 1) = rest := by
    have h2 : d ++ m :: rest = (d ++ [m]) ++ rest := by simp
    rw [h2]
    have hlen : (d ++ [m]).length = d.length + 1 := by simp
    rw [← hlen]
    exact List.drop_left (d ++ [m]) rest
  simp only [extractUnit, pyFind_append hnm, htake, hdrop, pyInt_digits hne hd]

theorem extractUnit_not_mem {s : List Char} {m : Char} (h : m ∉ s) :
    extractUnit s m = some (0, s) := by
  unfold extractUnit
  rw [pyFind_not_mem h]

theorem okComp_some {d : List Char} (h : okComp (some d) = true) :
    d ≠ [] ∧ ∀ x ∈ d, x.isDigit = true := by
  rcases d with _ | ⟨c, r⟩
  · simp [okComp, isDigits] at h
  · simp only [okComp, isDigits, List.isEmpty_cons, Bool.not_false,
      Bool.true_and, List.all_eq_true] at h
    exact ⟨by simp, h⟩

theorem not_mem_unitComp {m m2 : Char} (hm : m.isDigit = false) (hne : m ≠ m2)
    {o : Option (List Char)} (ho : okComp o = true) : m ∉ unitComp o m2 := by
  rcases o with _ | d
  · simp [unitComp]
  · obtain ⟨-, hd⟩ := okComp_some ho
    simp only [unitComp, List.mem_append, List.mem_singleton]
    rintro (hmem | rfl)
    · rw [hd m hmem] at hm; cases hm
    · exact hne rfl

theorem parse_encodeDuration {hc mc sc : Option (List Char)}
    (h1 : okComp hc = true) (h2 : okComp mc = true) (h3 : okComp sc = true) :
    parse_duration (encodeDuration hc mc sc) =
      some ((unitVal hc : Int) * 3600 + (unitVal mc : Int) * 60 + (unitVal sc : Int)) := by
  have hHM : ('H' : Char) ≠ 'M' := by decide
  have hHS : ('H' : Char) ≠ 'S' := by decide
  have hMS : ('M' : Char) ≠ 'S' := by decide
  have hHd : ('H' : Char).isDigit = false := by decide
  have hMd : ('M' : Char).isDigit = false := by decide
  have hSd : ('S' : Char).isDigit = false := by decide
  have hstrip : (encodeDuration hc mc sc).drop 2 =
      unitComp hc 'H' ++ (unitComp mc 'M' ++ unitComp sc 'S') := rfl
  have hH : extractUnit (unitComp hc 'H' ++ (unitComp mc 'M' ++ unitComp sc 'S')) 'H' =
      some ((unitVal hc : Int), unitComp mc 'M' ++ unitComp sc 'S') := by
    rcases hc with _ | d
    · have : ('H' : Char) ∉ unitComp mc 'M' ++ unitComp sc 'S' := by
        simp only [List.mem_append]
        rintro (h | h)
        · exact not_mem_unitComp hHd hHM h2 h
        · exact not_mem_unitComp hHd hHS h3 h
      simpa [unitComp, unitVal] using extractUnit_not_mem this
    · obtain ⟨hne, hd⟩ := okComp_some h1
      have := extractUnit_found (unitComp mc 'M' ++ unitComp sc 'S')
        hne hd hHd
      simpa [unitComp, unitVal] using this
  have hM : extractUnit (unitComp mc 'M' ++ unitComp sc 'S') 'M' =
      some ((unitVal mc : Int), unitComp sc 'S') := by
    rcases mc with _ | d
    · have : ('M' : Char) ∉ unitComp sc 'S' := not_mem_unitComp hMd hMS h3
      simpa [unitComp, unitVal] using extractUnit_not_mem this
    · obtain ⟨hne, hd⟩ := okComp_some h2
      have := extractUnit_found (unitComp sc 'S') hne hd hMd
      simpa [unitComp, unitVal] using this
  have hS : extractUnit (unitComp sc 'S') 'S' =
      some ((unitVal sc : Int), ([] : List Char)) := by
    rcases sc with _ | d
    · simpa [unitComp, unitVal] using
        extractUnit_not_mem (List.not_mem_nil ('S' : Char))
    · obtain ⟨hne, hd⟩ := okComp_some h3
      have := extractUnit_found ([] : List Char) hne hd hSd
      simpa [unitComp, unitVal] using this
  simp only [parse_duration, hstrip, hH, hM, hS]

/-! ### Claims C1 and C9 -/

/-- C1 (counterexample).  The claim says `parse_duration` is total and never
raises on any input string.  On the input `"PTH"` the scan finds the hour
marker at position 0 and calls `int("")`, which raises `ValueError`
(modelled as `none`), so the function does not return an integer. -/
theorem c1_counterexample_parse_duration_raises :
    parse_duration ['P', 'T', 'H'] = none := by rfl

/-- C1 (amended).  `parse_duration` is pure, and on every duration string
whose present unit markers are each preceded by a decimal numeral it returns
an integer without raising; a missing unit marker contributes zero for that
unit.  (The original claim is false: a present marker with an empty or
non-numeric prefix makes the underlying `int` call raise `ValueError`.) -/
theorem c1_parse_duration_total_on_wellformed (hc mc sc : Option (List Char))
    (h1 : okComp hc = true) (h2 : okComp mc = true) (h3 : okComp sc = true) :
    (parse_duration (encodeDuration hc mc sc)).isSome = true := by
  rw [parse_encodeDuration h1 h2 h3]
  rfl

theorem c1_witness :
    okComp (some ['4', '5']) = true ∧
    (parse_duration (encodeDuration none none (some ['4', '5']))).isSome = true :=
  ⟨by decide,
    c1_parse_duration_total_on_wellformed none none (some ['4', '5'])
      (by decide) (by decide) (by decide)⟩

/-- C9.  On every duration string consisting of the two-character prefix
followed by optional hour, minute and second components in that order (each
a decimal numeral followed by its marker), `parse_duration` returns exactly
hours*3600 + minutes*60 + seconds, a missing marker contributing zero. -/
theorem c9_parse_duration_exact_sum (hc mc sc : Option (List Char))
    (h1 : okComp hc = true) (h2 : okComp mc = true) (h3 : okComp sc = true) :
    parse_duration (encodeDuration hc mc sc) =
      some ((unitVal hc : Int) * 3600 + (unitVal mc : Int) * 60 + (unitVal sc : Int)) :=
  parse_encodeDuration h1 h2 h3

/-- The three examples of C9: `"PT1H30M15S"`, `"PT45S"`, `"PT0S"`. -/
theorem c9_witness :
    parse_duration (encodeDuration (some ['1']) (some ['3', '0']) (some ['1', '5'])) =
        some 5415 ∧
    parse_duration (encodeDuration none none (some ['4', '5'])) = some 45 ∧
    parse_duration (encodeDuration none none (some ['0'])) = some 0 := by
  refine ⟨?_, ?_, ?_⟩
  · rw [c9_parse_duration_exact_sum (some ['1']) (some ['3', '0']) (some ['1', '5'])
      (by decide) (by decide) (by decide)]
    decide
  · rw [c9_parse_duration_exact_sum none none (some ['4', '5'])
      (by decide) (by decide) (by decide)]
    decide
  · rw [c9_parse_duration_exact_sum none none (some ['0'])
      (by decide) (by decide) (by decide)]
    decide

/-! ## Aggregator: `get_top_videos` (src/scrapperv1.py lines 381-400)

The per-video dict stored in `stats[video_id]` has fixed keys; its
integer-valued fields are the ones a ranking metric can name. -/

/-- The per-video record built by `get_video_stats` (the value dict of
`stats[video_id]`). -/
structure VideoData where
  title : List Char
  views : Int
  likes : Int
  comments : Int
  duration : Int
  published_at : List Char
  thumbnail : List Char
deriving DecidableEq

/-- Python `x[1].get(metric, 0)` for the integer-valued keys of the
per-video dict; an unknown key yields the default `0`.  (The string-valued
keys `title`, `published_at`, `thumbnail` are not integer sort keys and are
outside every claim.) -/
def statGet (v : VideoData) (metric : String) : Int :=
  if metric = "views" then v.views
  else if metric = "likes" then v.likes
  else if metric = "comments" then v.comments
  else if metric = "duration" then v.duration
  else 0

/-- The comparison used by `sorted(stats.items(), key=..., reverse=True)`:
`a` may come no later than `b` exactly when the metric of `a` is at least
the metric of `b`. -/
def topRel (metric : String) (a b : String × VideoData) : Prop :=
  statGet b.2 metric ≤ statGet a.2 metric

instance (metric : String) : DecidableRel (topRel metric) := fun a b =>
  inferInstanceAs (Decidable (statGet b.2 metric ≤ statGet a.2 metric))

instance (metric : String) : IsTotal (String × VideoData) (topRel metric) :=
  ⟨fun a b => le_total (statGet b.2 metric) (statGet a.2 metric)⟩

instance (metric : String) : IsTrans (String × VideoData) (topRel metric) :=
  ⟨fun _ _ _ h1 h2 => le_trans h2 h1⟩

/-- `get_top_videos(stats, metric, limit)`.  Python `sorted` with
`reverse=True` is the stable descending sort (equal keys keep the input
iteration order); `List.insertionSort` with the total preorder
`topRel metric` computes exactly that permutation. -/
def get_top_videos (stats : List (String × VideoData)) (metric : String)
    (limit : Nat) : List (String × VideoData) :=
  (List.insertionSort (topRel metric) stats).take limit

/-- C5.  With the default limit 5, `get_top_videos` returns at most 5
entries, ordered non-increasing by the metric, the result is a prefix of
the stable descending sort of the full input, and that sort is stable:
every input-ordered descending chain survives into it (ties keep input
iteration order, no secondary key). -/
theorem c5_get_top_videos_spec (stats : List (String × VideoData)) (metric : String) :
    (get_top_videos stats metric 5).length ≤ 5 ∧
    List.Sorted (topRel metric) (get_top_videos stats metric 5) ∧
    (∃ t, List.insertionSort (topRel metric) stats = get_top_videos stats metric 5 ++ t) ∧
    (∀ c : List (String × VideoData), c.Pairwise (topRel metric) →
      List.Sublist c stats →
      List.Sublist c (List.insertionSort (topRel metric) stats)) := by
  refine ⟨List.length_take_le 5 _, ?_, ?_, ?_⟩
  · exact (List.sorted_insertionSort (topRel metric) stats).sublist
      (List.take_sublist 5 _)
  · exact ⟨(List.insertionSort (topRel metric) stats).drop 5,
      (List.take_append_drop 5 _).symm⟩
  · intro c hc hcs
    exact List.sublist_insertionSort hc hcs

/-! ## BatchStatsFetcher: `get_video_stats` (src/scrapperv1.py lines 287-338)

The catalog surface's batch detail call is a function from the requested id
list to either a raised `HttpError` or a list of response items.  An item
carries exactly the fields the loop body reads; the numeric statistics
fields are the already-converted integers (the platform returns decimal
strings, and `int` on them is the identity embedding), optional because the
Python code reads them with `.get(..., 0)`. -/

structure ApiVideoItem where
  id : String
  title : List Char
  viewCount : Option Int
  likeCount : Option Int
  commentCount : Option Int
  duration : Option (List Char)
  publishedAt : List Char
  thumbnailHigh : Option (List Char)
deriving DecidableEq

/-- The body of the per-item loop of `get_video_stats`: build the value dict
stored into `stats[video_id]`.  `parse_duration` may raise `ValueError`
(not an `HttpError`), which would propagate out of the whole function, hence
the `Option`. -/
def mkVideoData (it : ApiVideoItem) : Option VideoData :=
  match parse_duration (it.duration.getD ['P', 'T', '0', 'S']) with
  | none => none
  | some dur =>
    some { title := it.title, views := it.viewCount.getD 0,
           likes := it.likeCount.getD 0, comments := it.commentCount.getD 0,
           duration := dur, published_at := it.publishedAt,
           thumbnail := it.thumbnailHigh.getD [] }

/-- The `for item in response.get("items", [])` loop: store each item's
record under its id, in response order. -/
def processItems (acc : List (String × VideoData)) :
    List ApiVideoItem → Option (List (String × VideoData))
  | [] => some acc
  | it :: rest =>
    match mkVideoData it with
    | none => none
    | some v => processItems (dictInsert it.id v acc) rest

/-- Structural worker for `pyChunks`: the first argument is fuel, always at
least the length of the list, so the fuel never runs out (each step drops at
least one element). -/
def pyChunksAux : Nat → List String → List (List String)
  | _, [] => []
  | 0, _ :: _ => []
  | n + 1, x :: xs => ((x :: xs).take 50) :: pyChunksAux n ((x :: xs).drop 50)

/-- The slices `video_ids[i:i+50]` for `i in range(0, len(video_ids), 50)`:
consecutive chunks of at most 50 identifiers. -/
def pyChunks (l : List String) : List (List String) :=
  pyChunksAux l.length l

/-- The chunk loop of `get_video_stats`: one detail call per chunk; a raised
`HttpError` is caught and the loop continues with the next chunk; an uncaught
exception from the item loop aborts the whole call. -/
def statsLoop (api : List String → Except Unit (List ApiVideoItem)) :
    List (List String) → List (String × VideoData) →
    Option (List (String × VideoData))
  | [], acc => some acc
  | batch :: rest, acc =>
    match api batch with
    | .error _ => statsLoop api rest acc
    | .ok items =>
      match processItems acc items with
      | none => none
      | some acc2 => statsLoop api rest acc2

/-- `get_video_stats(youtube, video_ids)`. -/
def get_video_stats (api : List String → Except Unit (List ApiVideoItem))
    (video_ids : List String) : Option (List (String × VideoData)) :=
  statsLoop api (pyChunks video_ids) []

/-! ### Lemmas about chunking -/

theorem pyChunksAux_flatten :
    ∀ (n : Nat) (l : List String), l.length ≤ n → (pyChunksAux n l).flatten = l
  | _, [], _ => by simp [pyChunksAux]
  | 0, x :: xs, h => by simp at h
  | n + 1, x :: xs, h => by
    simp only [pyChunksAux, List.flatten_cons]
    rw [pyChunksAux_flatten n ((x :: xs).drop 50)
      (by simp only [List.length_drop, List.length_cons] at h ⊢; omega)]
    exact List.take_append_drop 50 (x :: xs)

theorem pyChunks_flatten (l : List String) : (pyChunks l).flatten = l :=
  pyChunksAux_flatten l.length l (Nat.le_refl _)

theorem pyChunksAux_length_le :
    ∀ (n : Nat) (l : List String), ∀ c ∈ pyChunksAux n l, c.length ≤ 50
  | _, [], c, hc => by simp [pyChunksAux] at hc
  | 0, _ :: _, c, hc => by simp [pyChunksAux] at hc
  | n + 1, x :: xs, c, hc => by
    simp only [pyChunksAux, List.mem_cons] at hc
    rcases hc with rfl | hc2
    · exact List.length_take_le 50 _
    · exact pyChunksAux_length_le n _ c hc2

theorem pyChunks_length_le (l : List String) :
    ∀ c ∈ pyChunks l, c.length ≤ 50 :=
  pyChunksAux_length_le l.length l

/-! ### Lemmas about the result keys -/

theorem mem_keys_dictInsert {κ β : Type} [DecidableEq κ] {k x : κ} {v : β} :
    ∀ {d : List (κ × β)},
      (x ∈ (dictInsert k v d).map Prod.fst ↔ x = k ∨ x ∈ d.map Prod.fst)
  | [] => by simp [dictInsert]
  | (k2, v2) :: rest => by
    by_cases hk : k2 = k
    · subst hk
      simp [dictInsert]
    · have ih : x ∈ (dictInsert k v rest).map Prod.fst ↔
          x = k ∨ x ∈ rest.map Prod.fst := mem_keys_dictInsert
      simp only [dictInsert, if_neg hk, List.map_cons, List.mem_cons, ih]
      tauto

theorem processItems_keys :
    ∀ (items : List ApiVideoItem) (acc acc2 : List (String × VideoData)),
      processItems acc items = some acc2 →
      ∀ x ∈ acc2.map Prod.fst,
        x ∈ acc.map Prod.fst ∨ x ∈ items.map ApiVideoItem.id
  | [], acc, acc2, h, x, hx => by
    simp only [processItems, Option.some.injEq] at h
    subst h
    exact Or.inl hx
  | it :: rest, acc, acc2, h, x, hx => by
    simp only [processItems] at h
    rcases hmk : mkVideoData it with _ | v
    · rw [hmk] at h; cases h
    · rw [hmk] at h
      rcases processItems_keys rest _ _ h x hx with h2 | h2
      · rcases mem_keys_dictInsert.mp h2 with rfl | h3
        · exact Or.inr (by simp)
        · exact Or.inl h3
      · exact Or.inr (by simp [h2])

theorem processItems_spec :
    ∀ (items : List ApiVideoItem) (acc : List (String × VideoData)),
      (∀ it ∈ items, (mkVideoData it).isSome = true) →
      ∃ acc2, processItems acc items = some acc2 ∧
        ∀ x, (x ∈ acc2.map Prod.fst ↔
          x ∈ acc.map Prod.fst ∨ x ∈ items.map ApiVideoItem.id)
  | [], acc, _ => ⟨acc, rfl, by simp⟩
  | it :: rest, acc, h => by
    have hit : (mkVideoData it).isSome = true := h it (by simp)
    rcases hmk : mkVideoData it with _ | v
    · rw [hmk] at hit; cases hit
    · obtain ⟨acc2, h1, h2⟩ :=
        processItems_spec rest (dictInsert it.id v acc)
          (fun x hx => h x (List.mem_cons_of_mem it hx))
      refine ⟨acc2, ?_, ?_⟩
      · simp only [processItems, hmk]
        exact h1
      · intro x
        rw [h2 x, mem_keys_dictInsert]
        simp only [List.map_cons, List.mem_cons]
        tauto

theorem statsLoop_keys
    (api : List String → Except Unit (List ApiVideoItem))
    (hsub : ∀ batch r, api batch = .ok r → ∀ it ∈ r, it.id ∈ batch) :
    ∀ (chunks : List (List String)) (acc m : List (String × VideoData)),
      statsLoop api chunks acc = some m →
      ∀ x ∈ m.map Prod.fst,
        x ∈ acc.map Prod.fst ∨ ∃ c ∈ chunks, x ∈ c
  | [], acc, m, h, x, hx => by
    simp only [statsLoop, Option.some.injEq] at h
    subst h
    exact Or.inl hx
  | batch :: rest, acc, m, h, x, hx => by
    simp only [statsLoop] at h
    rcases hb : api batch with e | r
    · simp only [hb] at h
      rcases statsLoop_keys api hsub rest acc m h x hx with h2 | ⟨c, hc, hxc⟩
      · exact Or.inl h2
      · exact Or.inr ⟨c, List.mem_cons_of_mem _ hc, hxc⟩
    · simp only [hb] at h
      rcases hp : processItems acc r with _ | acc2
      · simp only [hp] at h
        cases h
      · simp only [hp] at h
        rcases statsLoop_keys api hsub rest acc2 m h x hx with h2 | ⟨c, hc, hxc⟩
        · rcases processItems_keys r acc acc2 hp x h2 with h3 | h3
          · exact Or.inl h3
          · obtain ⟨it, hit, rfl⟩ := List.mem_map.mp h3
            exact Or.inr ⟨batch, by simp, hsub batch r hb it hit⟩
        · exact Or.inr ⟨c, List.mem_cons_of_mem _ hc, hxc⟩

/-- C4.  For every non-empty identifier list, `get_video_stats` partitions
the list into consecutive chunks of size at most 50 (one detail call is
issued per chunk in `statsLoop`), and — provided the catalog surface only
returns items for ids it was asked about — the key set of the returned
mapping is a subset of the input identifiers. -/
theorem c4_get_video_stats_chunks_and_keys
    (api : List String → Except Unit (List ApiVideoItem))
    (video_ids : List String) (_hne : video_ids ≠ [])
    (hsub : ∀ batch r, api batch = .ok r → ∀ it ∈ r, it.id ∈ batch)
    (m : List (String × VideoData))
    (hm : get_video_stats api video_ids = some m) :
    (∀ c ∈ pyChunks video_ids, c.length ≤ 50) ∧
    (pyChunks video_ids).flatten = video_ids ∧
    (∀ x ∈ m.map Prod.fst, x ∈ video_ids) := by
  refine ⟨pyChunks_length_le video_ids, pyChunks_flatten video_ids, ?_⟩
  intro x hx
  rcases statsLoop_keys api hsub (pyChunks video_ids) [] m hm x hx with
    h | ⟨c, hc, hxc⟩
  · simp at h
  · rw [← pyChunks_flatten video_ids]
    exact List.mem_flatten.mpr ⟨c, hc, hxc⟩

/-- A healthy catalog surface for witnesses: echo each requested id back as
an item with empty statistics. -/
def c4ApiW : List String → Except Unit (List ApiVideoItem) := fun batch =>
  .ok (batch.map fun i =>
    { id := i, title := [], viewCount := none, likeCount := none,
      commentCount := none, duration := none, publishedAt := [],
      thumbnailHigh := none })

/-- The record `get_video_stats` builds from such an empty item. -/
def c4VideoW : VideoData :=
  { title := [], views := 0, likes := 0, comments := 0, duration := 0,
    published_at := [], thumbnail := [] }

theorem c4_witness :
    (∀ c ∈ pyChunks ["a", "b"], c.length ≤ 50) ∧
    (pyChunks ["a", "b"]).flatten = ["a", "b"] ∧
    (∀ x ∈ ([("a", c4VideoW), ("b", c4VideoW)] :
        List (String × VideoData)).map Prod.fst,
      x ∈ ["a", "b"]) :=
  c4_get_video_stats_chunks_and_keys c4ApiW ["a", "b"] (by decide)
    (by
      intro batch r h it hit
      simp only [c4ApiW, Except.ok.injEq] at h
      subst h
      obtain ⟨i, hi, rfl⟩ := List.mem_map.mp hit
      exact hi)
    [("a", c4VideoW), ("b", c4VideoW)] (by rfl)

theorem statsLoop_isolation
    (api : List String → Except Unit (List ApiVideoItem))
    (hok : ∀ batch r, api batch = .ok r →
      r.map ApiVideoItem.id = batch ∧ ∀ it ∈ r, (mkVideoData it).isSome = true) :
    ∀ (chunks : List (List String)) (acc : List (String × VideoData)),
      chunks.flatten.Nodup →
      (∀ c ∈ chunks, ∀ x ∈ c, x ∉ acc.map Prod.fst) →
      ∃ m, statsLoop api chunks acc = some m ∧
        ∀ x, (x ∈ m.map Prod.fst ↔
          (x ∈ acc.map Prod.fst ∨ ∃ c ∈ chunks, x ∈ c ∧ ∃ r, api c = .ok r))
  | [], acc, _, _ => ⟨acc, rfl, by simp⟩
  | batch :: rest, acc, hnd, hdisj => by
    have hnd2 : (batch ++ rest.flatten).Nodup := by simpa using hnd
    rw [List.nodup_append] at hnd2
    obtain ⟨hndb, hndr, hdisj2⟩ := hnd2
    rcases hb : api batch with e | r
    · obtain ⟨m, h1, h2⟩ := statsLoop_isolation api hok rest acc hndr
        (fun c hc x hx => hdisj c (List.mem_cons_of_mem _ hc) x hx)
      refine ⟨m, ?_, ?_⟩
      · simp only [statsLoop, hb]
        exact h1
      · intro x
        rw [h2 x]
        constructor
        · rintro (h | ⟨c, hc, hxc, hr⟩)
          · exact Or.inl h
          · exact Or.inr ⟨c, List.mem_cons_of_mem _ hc, hxc, hr⟩
        · rintro (h | ⟨c, hc, hxc, r2, hr⟩)
          · exact Or.inl h
          · rcases List.mem_cons.mp hc with rfl | hc2
            · rw [hb] at hr
              cases hr
            · exact Or.inr ⟨c, hc2, hxc, r2, hr⟩
    · obtain ⟨hmap, hmk⟩ := hok batch r hb
      obtain ⟨acc2, hp, hkeys⟩ := processItems_spec r acc hmk
      have hacc2 : ∀ x, (x ∈ acc2.map Prod.fst ↔
          x ∈ acc.map Prod.fst ∨ x ∈ batch) := by
        intro x
        rw [hkeys x, hmap]
      have hdisj3 : ∀ c ∈ rest, ∀ x ∈ c, x ∉ acc2.map Prod.fst := by
        intro c hc x hx
        rw [hacc2 x]
        rintro (h | h)
        · exact hdisj c (List.mem_cons_of_mem _ hc) x hx h
        · exact hdisj2 h (List.mem_flatten.mpr ⟨c, hc, hx⟩)
      obtain ⟨m, h1, h2⟩ := statsLoop_isolation api hok rest acc2 hndr hdisj3
      refine ⟨m, ?_, ?_⟩
      · simp only [statsLoop, hb, hp]
        exact h1
      · intro x
        rw [h2 x, hacc2 x]
        constructor
        · rintro ((h | h) | ⟨c, hc, hxc, hr⟩)
          · exact Or.inl h
          · exact Or.inr ⟨batch, by simp, h, r, hb⟩
          · exact Or.inr ⟨c, List.mem_cons_of_mem _ hc, hxc, hr⟩
        · rintro (h | ⟨c, hc, hxc, r2, hr⟩)
          · exact Or.inl (Or.inl h)
          · rcases List.mem_cons.mp hc with rfl | hc2
            · exact Or.inl (Or.inr hxc)
            · exact Or.inr ⟨c, hc2, hxc, r2, hr⟩

/-- C8.  With pairwise-distinct input identifiers and a catalog surface that,
on success, returns one item per requested id (with parseable durations),
`get_video_stats` never aborts on a chunk-level `HttpError`, and an
identifier ends up in the result exactly when the detail call for its chunk
succeeded: a failed chunk's identifiers are absent, every other chunk's
entries are unaffected, and processing continues past the failure. -/
theorem c8_get_video_stats_chunk_failure_isolation
    (api : List String → Except Unit (List ApiVideoItem))
    (video_ids : List String)
    (hok : ∀ batch r, api batch = .ok r →
      r.map ApiVideoItem.id = batch ∧ ∀ it ∈ r, (mkVideoData it).isSome = true)
    (hnd : video_ids.Nodup) :
    ∃ m, get_video_stats api video_ids = some m ∧
      ∀ x ∈ video_ids,
        (x ∈ m.map Prod.fst ↔
          ∃ c ∈ pyChunks video_ids, x ∈ c ∧ ∃ r, api c = .ok r) := by
  obtain ⟨m, h1, h2⟩ := statsLoop_isolation api hok (pyChunks video_ids) []
    (by rw [pyChunks_flatten]; exact hnd) (by simp)
  refine ⟨m, h1, fun x _ => ?_⟩
  rw [h2 x]
  simp

/-- A catalog surface whose every detail call raises `HttpError`. -/
def c8ApiW : List String → Except Unit (List ApiVideoItem) := fun _ =>
  .error ()

theorem c8_witness :
    ∃ m, get_video_stats c8ApiW ["a"] = some m ∧
      ∀ x ∈ ["a"],
        (x ∈ m.map Prod.fst ↔
          ∃ c ∈ pyChunks ["a"], x ∈ c ∧ ∃ r, c8ApiW c = .ok r) :=
  c8_get_video_stats_chunk_failure_isolation c8ApiW ["a"]
    (by intro batch r h; simp [c8ApiW] at h) (by decide)

/-! ## AnnualMetricsFetcher: `get_annual_views` (src/scrapperv1.py lines 168-203)

The reporting surface is a function from the year (which determines the
query's date range) to either a raised `HttpError` or a response.  The
response carries the one field read: the optional `"rows"` key, a table of
integers (`int(views)` on the number the platform returns is the identity
embedding). -/

/-- The expression `response.get("rows", [[0]])[0][0]`: the default `[[0]]`
applies only when the `"rows"` key is absent (`resp = none`); `none` as a
result models the uncaught `IndexError` raised when the rows list, or its
first row, is empty. -/
def respValue (resp : Option (List (List Int))) : Option Int :=
  match resp.getD [[0]] with
  | [] => none
  | row :: _ =>
    match row with
    | [] => none
    | v :: _ => some v

/-- The `for year in range(start_year, end_year + 1)` loop: a raised
`HttpError` is caught and the year is recorded as 0; an `IndexError` from
the row indexing is not caught and aborts the whole function. -/
def annualLoop (api : Nat → Except Unit (Option (List (List Int)))) :
    List Nat → List (Nat × Int) → Option (List (Nat × Int))
  | [], acc => some acc
  | y :: rest, acc =>
    match api y with
    | .error _ => annualLoop api rest (dictInsert y 0 acc)
    | .ok resp =>
      match respValue resp with
      | none => none
      | some v => annualLoop api rest (dictInsert y v acc)

/-- `get_annual_views(youtube_analytics, channel_id, start_year, end_year)`. -/
def get_annual_views (api : Nat → Except Unit (Option (List (List Int))))
    (start_year end_year : Nat) : Option (List (Nat × Int)) :=
  annualLoop api (List.range' start_year (end_year + 1 - start_year)) []

/-- The total recorded for a year when the loop does not abort there: 0 on
`HttpError`, else the first cell of the first row (with the `[[0]]` default
when `"rows"` is absent). -/
def yearVal (api : Nat → Except Unit (Option (List (List Int)))) (y : Nat) :
    Int :=
  match api y with
  | .error _ => 0
  | .ok resp => (respValue resp).getD 0

/-! ### Dict lemmas for fresh keys -/

theorem dictInsert_fresh {κ β : Type} [DecidableEq κ] {k : κ} {v : β} :
    ∀ {d : List (κ × β)}, k ∉ d.map Prod.fst → dictInsert k v d = d ++ [(k, v)]
  | [], _ => rfl
  | (k2, v2) :: rest, h => by
    simp only [List.map_cons, List.mem_cons, not_or] at h
    obtain ⟨h1, h2⟩ := h
    have hk : ¬k2 = k := fun he => h1 he.symm
    simp only [dictInsert, if_neg hk, List.cons_append]
    rw [dictInsert_fresh h2]

theorem dictLookup_append_right {κ β : Type} [DecidableEq κ] {k : κ} :
    ∀ {d d2 : List (κ × β)}, k ∉ d.map Prod.fst →
      dictLookup (d ++ d2) k = dictLookup d2 k
  | [], _, _ => rfl
  | (k2, v2) :: rest, d2, h => by
    simp only [List.map_cons, List.mem_cons, not_or] at h
    obtain ⟨h1, h2⟩ := h
    have hk : ¬k2 = k := fun he => h1 he.symm
    simp only [List.cons_append, dictLookup, if_neg hk]
    exact dictLookup_append_right h2

theorem dictLookup_append_left {κ β : Type} [DecidableEq κ] {k : κ} {v : β} :
    ∀ {d d2 : List (κ × β)}, dictLookup d k = some v →
      dictLookup (d ++ d2) k = some v
  | [], _, h => by cases h
  | (k2, v2) :: rest, d2, h => by
    by_cases hk : k2 = k
    · simp only [dictLookup, if_pos hk] at h ⊢
      exact h
    · simp only [dictLookup, if_neg hk] at h ⊢
      exact dictLookup_append_left h

/-! ### The per-year loop invariant -/

theorem annualLoop_spec (api : Nat → Except Unit (Option (List (List Int)))) :
    ∀ (years : List Nat) (acc : List (Nat × Int)),
      (∀ y ∈ years, ∀ resp, api y = .ok resp → (respValue resp).isSome = true) →
      years.Nodup →
      (∀ y ∈ years, y ∉ acc.map Prod.fst) →
      ∃ m, annualLoop api years acc = some m ∧
        m.map Prod.fst = acc.map Prod.fst ++ years ∧
        (∀ k v, dictLookup acc k = some v → dictLookup m k = some v) ∧
        (∀ y ∈ years, dictLookup m y = some (yearVal api y))
  | [], acc, _, _, _ => ⟨acc, rfl, by simp, fun _ _ h => h, by simp⟩
  | y :: rest, acc, hv, hnd, hdisj => by
    have hfresh : y ∉ acc.map Prod.fst := hdisj y (by simp)
    obtain ⟨hy, hndr⟩ := List.nodup_cons.mp hnd
    have hstep : ∃ val, annualLoop api (y :: rest) acc =
        annualLoop api rest (dictInsert y val acc) ∧ val = yearVal api y := by
      rcases hb : api y with e | resp
      · exact ⟨0, by simp only [annualLoop, hb], by simp [yearVal, hb]⟩
      · have hsome : (respValue resp).isSome = true := hv y (by simp) resp hb
        rcases hrv : respValue resp with _ | v
        · rw [hrv] at hsome
          cases hsome
        · exact ⟨v, by simp only [annualLoop, hb, hrv],
            by simp [yearVal, hb, hrv]⟩
    obtain ⟨val, hstep, hval⟩ := hstep
    have hins : dictInsert y val acc = acc ++ [(y, val)] := dictInsert_fresh hfresh
    obtain ⟨m, h1, h2, h3, h4⟩ := annualLoop_spec api rest (dictInsert y val acc)
      (fun y2 hy2 resp hr => hv y2 (List.mem_cons_of_mem _ hy2) resp hr)
      hndr
      (by
        intro y2 hy2
        rw [hins]
        simp only [List.map_append, List.mem_append, List.map_cons,
          List.map_nil, List.mem_cons, List.not_mem_nil, or_false]
        rintro (h | h)
        · exact hdisj y2 (List.mem_cons_of_mem _ hy2) h
        · exact hy (h ▸ hy2))
    refine ⟨m, ?_, ?_, ?_, ?_⟩
    · rw [hstep]
      exact h1
    · rw [h2, hins]
      simp
    · intro k v h
      exact h3 k v (by rw [hins]; exact dictLookup_append_left h)
    · intro y2 hy2
      rcases List.mem_cons.mp hy2 with rfl | hmem
      · rw [← hval]
        refine h3 y2 val ?_
        rw [hins, dictLookup_append_right hfresh]
        simp [dictLookup]
      · exact h4 y2 hmem

/-- C3.  For every `start_year ≤ end_year`, provided every successful
per-year response has a first cell in its first row (no `IndexError`, see
C10), `get_annual_views` returns normally with exactly one entry per year of
`[start_year, end_year]` in order; a year whose reporting call raised
`HttpError` is recorded as 0, and every other year retains its fetched
total. -/
theorem c3_get_annual_views_per_year
    (api : Nat → Except Unit (Option (List (List Int))))
    (start_year end_year : Nat) (hse : start_year ≤ end_year)
    (hrows : ∀ y, start_year ≤ y → y ≤ end_year →
      ∀ resp, api y = .ok resp → (respValue resp).isSome = true) :
    ∃ m, get_annual_views api start_year end_year = some m ∧
      m.map Prod.fst = List.range' start_year (end_year + 1 - start_year) ∧
      (∀ y, start_year ≤ y → y ≤ end_year → api y = .error () →
        dictLookup m y = some 0) ∧
      (∀ y resp v, start_year ≤ y → y ≤ end_year → api y = .ok resp →
        respValue resp = some v → dictLookup m y = some v) := by
  have hmem : ∀ y, y ∈ List.range' start_year (end_year + 1 - start_year) ↔
      (start_year ≤ y ∧ y ≤ end_year) := by
    intro y
    rw [List.mem_range'_1]
    omega
  obtain ⟨m, h1, h2, _h3, h4⟩ := annualLoop_spec api
    (List.range' start_year (end_year + 1 - start_year)) []
    (fun y hy resp hr => hrows y ((hmem y).mp hy).1 ((hmem y).mp hy).2 resp hr)
    (List.nodup_range' _ _ 1 Nat.one_pos)
    (by simp)
  refine ⟨m, h1, by simpa using h2, ?_, ?_⟩
  · intro y hy1 hy2 herr
    have h := h4 y ((hmem y).mpr ⟨hy1, hy2⟩)
    simp only [yearVal, herr] at h
    exact h
  · intro y resp v hy1 hy2 hok hrv
    have h := h4 y ((hmem y).mpr ⟨hy1, hy2⟩)
    simp only [yearVal, hok, hrv, Option.getD_some] at h
    exact h

/-- A reporting surface for the C3 witness: the call for year 2021 raises
`HttpError`, every other year reports 7 views. -/
def c3ApiW : Nat → Except Unit (Option (List (List Int))) := fun y =>
  if y = 2021 then .error () else .ok (some [[7]])

theorem c3_witness :
    ∃ m, get_annual_views c3ApiW 2020 2022 = some m ∧
      m.map Prod.fst = List.range' 2020 (2022 + 1 - 2020) ∧
      (∀ y, 2020 ≤ y → y ≤ 2022 → c3ApiW y = .error () →
        dictLookup m y = some 0) ∧
      (∀ y resp v, 2020 ≤ y → y ≤ 2022 → c3ApiW y = .ok resp →
        respValue resp = some v → dictLookup m y = some v) :=
  c3_get_annual_views_per_year c3ApiW 2020 2022 (by decide)
    (by
      intro y h1 h2 resp hr
      by_cases hy : y = 2021
      · simp [c3ApiW, hy] at hr
      · simp only [c3ApiW, if_neg hy, Except.ok.injEq] at hr
        subst hr
        rfl)

theorem annualLoop_abort (api : Nat → Except Unit (Option (List (List Int)))) :
    ∀ (years : List Nat) (acc : List (Nat × Int)) (y : Nat), y ∈ years →
      api y = .ok (some []) → annualLoop api years acc = none
  | [], _, y, hy, _ => absurd hy (List.not_mem_nil y)
  | y2 :: rest, acc, y, hy, hok => by
    rcases List.mem_cons.mp hy with rfl | hmem
    · simp [annualLoop, hok, respValue]
    · rcases hb : api y2 with e | resp
      · simp only [annualLoop, hb]
        exact annualLoop_abort api rest _ y hmem hok
      · simp only [annualLoop, hb]
        rcases hrv : respValue resp with _ | v
        · simp
        · simp only []
          exact annualLoop_abort api rest _ y hmem hok

/-- C10.  The 0 default of `get_annual_views` applies only when a successful
response lacks the `"rows"` key: when the call for some year of the range
succeeds but returns an empty rows list, the indexing `[0][0]` raises an
uncaught `IndexError` and the whole function aborts (returns no mapping at
all) instead of recording 0 for that year and continuing. -/
theorem c10_get_annual_views_empty_rows_aborts
    (api : Nat → Except Unit (Option (List (List Int))))
    (start_year end_year y : Nat) (h1 : start_year ≤ y) (h2 : y ≤ end_year)
    (h3 : api y = .ok (some [])) :
    get_annual_views api start_year end_year = none := by
  have hmem : y ∈ List.range' start_year (end_year + 1 - start_year) := by
    rw [List.mem_range'_1]
    omega
  exact annualLoop_abort api _ [] y hmem h3

/-- A reporting surface for the C10 witness: year 2021 succeeds with an
empty rows list, every other year reports 7 views. -/
def c10ApiW : Nat → Except Unit (Option (List (List Int))) := fun y =>
  if y = 2021 then .ok (some []) else .ok (some [[7]])

theorem c10_witness : get_annual_views c10ApiW 2020 2022 = none :=
  c10_get_annual_views_empty_rows_aborts c10ApiW 2020 2022 2021
    (by decide) (by decide) (by rfl)

/-! ## PaginatedFetcher: `get_videos_by_year` (src/scrapperv1.py lines 235-285)

A playlist item carries the two fields the loop reads:
`item["snippet"]["resourceId"]["videoId"]` and
`item["snippet"]["publishedAt"]`.  The catalog surface is modelled by the
finite sequence of responses the platform would give to the successive page
calls: the list ends exactly where the last response carries no
`nextPageToken`, and an `.error` entry is a call that raises `HttpError`. -/

structure PlaylistItem where
  videoId : String
  publishedAt : List Char
deriving DecidableEq

/-- The per-item body: `year = published_at[:4]`, then
`videos_by_year[year] = []` if the year key is new, then
`videos_by_year[year].append(video_id)`.  On an association list this
appends to the list of an existing year key in place, or appends a new
`(year, [vid])` entry at the end. -/
def bucketAdd (d : List (List Char × List String)) (year : List Char)
    (vid : String) : List (List Char × List String) :=
  match d with
  | [] => [(year, [vid])]
  | (y, vs) :: rest =>
    if y = year then (y, vs ++ [vid]) :: rest
    else (y, vs) :: bucketAdd rest year vid

/-- One page's `for item in playlist_response.get("items", [])` loop. -/
def processPage (acc : List (List Char × List String))
    (items : List PlaylistItem) : List (List Char × List String) :=
  items.foldl (fun a it => bucketAdd a (it.publishedAt.take 4) it.videoId) acc

/-- The pagination `while True` loop: process pages until the page list is
exhausted (no `nextPageToken`) or a call raises `HttpError`, in which case
the dict accumulated so far is returned (line 285). -/
def fetchLoop (acc : List (List Char × List String)) :
    List (Except Unit (List PlaylistItem)) → List (List Char × List String)
  | [] => acc
  | .error _ :: _ => acc
  | .ok items :: rest => fetchLoop (processPage acc items) rest

/-- `get_videos_by_year(youtube, uploads_playlist_id)`. -/
def get_videos_by_year (pages : List (Except Unit (List PlaylistItem))) :
    List (List Char × List String) :=
  fetchLoop [] pages

/-- The items of the pages before the first failing call (all items when no
call fails). -/
def consumedItems :
    List (Except Unit (List PlaylistItem)) → List PlaylistItem
  | [] => []
  | .error _ :: _ => []
  | .ok items :: rest => items ++ consumedItems rest

/-- All pages' items, in the platform's page order. -/
def pageItems (pages : List (Except Unit (List PlaylistItem))) :
    List PlaylistItem :=
  (pages.map fun p => match p with | .ok items => items | .error _ => []).flatten

/-- The bucket dict built from a flat item list (what the loop builds when
it consumes exactly those items). -/
def buildBuckets (items : List PlaylistItem) :
    List (List Char × List String) :=
  processPage [] items

/-- `vid` is a member of bucket `year` of the dict `d`. -/
def inBucket (d : List (List Char × List String)) (year : List Char)
    (vid : String) : Prop :=
  ∃ vs, dictLookup d year = some vs ∧ vid ∈ vs

/-! ### Lemmas about the pagination loop -/

theorem fetchLoop_eq :
    ∀ (pages : List (Except Unit (List PlaylistItem)))
      (acc : List (List Char × List String)),
      fetchLoop acc pages = processPage acc (consumedItems pages)
  | [], _ => rfl
  | .error _ :: _, _ => rfl
  | .ok items :: rest, acc => by
    simp only [fetchLoop, consumedItems]
    rw [fetchLoop_eq rest (processPage acc items)]
    simp [processPage, List.foldl_append]

theorem consumedItems_append_error :
    ∀ (good : List (Except Unit (List PlaylistItem))) (e : Unit)
      (rest : List (Except Unit (List PlaylistItem))),
      (∀ p ∈ good, ∃ its, p = .ok its) →
      consumedItems (good ++ .error e :: rest) = pageItems good
  | [], _, _, _ => rfl
  | p :: good, e, rest, h => by
    obtain ⟨its, rfl⟩ := h p (by simp)
    simp only [List.cons_append, consumedItems, pageItems, List.map_cons,
      List.flatten_cons, List.append_eq]
    rw [consumedItems_append_error good e rest
      (fun q hq => h q (List.mem_cons_of_mem _ hq))]
    rfl

theorem consumedItems_all_ok :
    ∀ (pages : List (Except Unit (List PlaylistItem))),
      (∀ p ∈ pages, ∃ its, p = .ok its) →
      consumedItems pages = pageItems pages
  | [], _ => rfl
  | p :: pages, h => by
    obtain ⟨its, rfl⟩ := h p (by simp)
    simp only [consumedItems, pageItems, List.map_cons, List.flatten_cons]
    rw [consumedItems_all_ok pages (fun q hq => h q (List.mem_cons_of_mem _ hq))]
    rfl

theorem inBucket_nil {y2 : List Char} {v2 : String} :
    ¬inBucket [] y2 v2 := by
  rintro ⟨vs, hvs, -⟩
  cases hvs

theorem inBucket_cons_ne {yk y2 : List Char} {vs : List String} {v2 : String}
    {rest : List (List Char × List String)} (h : ¬yk = y2) :
    inBucket ((yk, vs) :: rest) y2 v2 ↔ inBucket rest y2 v2 := by
  unfold inBucket
  simp only [dictLookup, if_neg h]

theorem inBucket_cons_eq {yk : List Char} {vs : List String} {v2 : String}
    {rest : List (List Char × List String)} :
    inBucket ((yk, vs) :: rest) yk v2 ↔ v2 ∈ vs := by
  unfold inBucket
  simp [dictLookup]

theorem inBucket_bucketAdd {year y2 : List Char} {vid v2 : String} :
    ∀ {d : List (List Char × List String)},
      (inBucket (bucketAdd d year vid) y2 v2 ↔
        ((y2 = year ∧ v2 = vid) ∨ inBucket d y2 v2))
  | [] => by
    have hba : bucketAdd [] year vid = [(year, [vid])] := rfl
    rw [hba]
    by_cases hy : year = y2
    · subst hy
      rw [inBucket_cons_eq]
      simp [inBucket_nil]
    · have hne : ¬(y2 = year) := fun h => hy h.symm
      rw [inBucket_cons_ne hy]
      simp [inBucket_nil, hne]
  | (yk, vs) :: rest => by
    by_cases hk : yk = year
    · subst hk
      have hba : bucketAdd ((yk, vs) :: rest) yk vid =
          (yk, vs ++ [vid]) :: rest := by
        simp [bucketAdd]
      rw [hba]
      by_cases hy : yk = y2
      · subst hy
        rw [inBucket_cons_eq, inBucket_cons_eq]
        simp only [List.mem_append, List.mem_singleton, eq_self_iff_true,
          true_and]
        tauto
      · have hne : ¬(y2 = yk) := fun h => hy h.symm
        rw [inBucket_cons_ne hy, inBucket_cons_ne hy]
        simp [hne]
    · have hba : bucketAdd ((yk, vs) :: rest) year vid =
          (yk, vs) :: bucketAdd rest year vid := by
        simp [bucketAdd, hk]
      rw [hba]
      by_cases hy : yk = y2
      · subst hy
        rw [inBucket_cons_eq, inBucket_cons_eq]
        simp [hk]
      · rw [inBucket_cons_ne hy, inBucket_cons_ne hy]
        exact inBucket_bucketAdd

theorem inBucket_processPage {y2 : List Char} {v2 : String} :
    ∀ (items : List PlaylistItem) (acc : List (List Char × List String)),
      (inBucket (processPage acc items) y2 v2 ↔
        (inBucket acc y2 v2 ∨
          ∃ it ∈ items, it.videoId = v2 ∧ it.publishedAt.take 4 = y2))
  | [], acc => by simp [processPage]
  | it :: items, acc => by
    have hpp : processPage acc (it :: items) =
        processPage (bucketAdd acc (it.publishedAt.take 4) it.videoId) items :=
      rfl
    rw [hpp, inBucket_processPage items
      (bucketAdd acc (it.publishedAt.take 4) it.videoId)]
    rw [inBucket_bucketAdd]
    simp only [List.mem_cons, exists_eq_or_imp]
    constructor
    · rintro ((⟨rfl, rfl⟩ | h) | h)
      · exact Or.inr (Or.inl ⟨rfl, rfl⟩)
      · exact Or.inl h
      · exact Or.inr (Or.inr h)
    · rintro (h | (⟨h1, h2⟩ | h))
      · exact Or.inl (Or.inr h)
      · exact Or.inl (Or.inl ⟨h2.symm, h1.symm⟩)
      · exact Or.inr h

/-- C7.  When some page-level call fails, `get_videos_by_year` stops at that
failure and returns exactly the buckets of the items accumulated from the
pages before it — no exception reaches the caller (the function is total
and returns a dict); when no call fails it returns the buckets of all
pages' items in the platform's page order. -/
theorem c7_get_videos_by_year_partial_results
    (good rest pages : List (Except Unit (List PlaylistItem)))
    (h1 : ∀ p ∈ good, ∃ its, p = .ok its)
    (h2 : ∀ p ∈ pages, ∃ its, p = .ok its) :
    get_videos_by_year (good ++ .error () :: rest) =
        buildBuckets (pageItems good) ∧
    get_videos_by_year pages = buildBuckets (pageItems pages) := by
  constructor
  · rw [get_videos_by_year, fetchLoop_eq,
      consumedItems_append_error good () rest h1]
    rfl
  · rw [get_videos_by_year, fetchLoop_eq, consumedItems_all_ok pages h2]
    rfl

/-- Playlist items for the pagination witnesses. -/
def itemW1 : PlaylistItem :=
  { videoId := "a",
    publishedAt := ['2', '0', '2', '2', '-', '0', '7', '-', '0', '1',
      'T', '1', '0', ':', '0', '0', ':', '0', '0', 'Z'] }

def itemW2 : PlaylistItem :=
  { videoId := "b",
    publishedAt := ['2', '0', '2', '1', '-', '0', '3', '-', '0', '2',
      'T', '0', '9', ':', '0', '0', ':', '0', '0', 'Z'] }

theorem c7_witness :
    get_videos_by_year ([.ok [itemW1]] ++ .error () :: [.ok [itemW2]]) =
        buildBuckets (pageItems [.ok [itemW1]]) ∧
    get_videos_by_year [.ok [itemW1], .ok [itemW2]] =
        buildBuckets (pageItems [.ok [itemW1], .ok [itemW2]]) :=
  c7_get_videos_by_year_partial_results [.ok [itemW1]] [.ok [itemW2]]
    [.ok [itemW1], .ok [itemW2]]
    (by
      intro p hp
      rw [List.mem_singleton] at hp
      exact ⟨[itemW1], hp⟩)
    (by
      intro p hp
      rcases List.mem_cons.mp hp with rfl | hp2
      · exact ⟨[itemW1], rfl⟩
      · rw [List.mem_singleton] at hp2
        exact ⟨[itemW2], hp2⟩)

/-- C6.  Provided the consumed items carry pairwise-distinct video ids,
every video is placed in exactly one year bucket of the
`get_videos_by_year` result, namely the bucket named by the first four
characters of its publication timestamp string. -/
theorem c6_get_videos_by_year_unique_bucket
    (pages : List (Except Unit (List PlaylistItem)))
    (hnd : ((consumedItems pages).map PlaylistItem.videoId).Nodup) :
    ∀ it ∈ consumedItems pages,
      inBucket (get_videos_by_year pages) (it.publishedAt.take 4)
        it.videoId ∧
      ∀ y, inBucket (get_videos_by_year pages) y it.videoId →
        y = it.publishedAt.take 4 := by
  have hchar : ∀ y v, (inBucket (get_videos_by_year pages) y v ↔
      ∃ it2 ∈ consumedItems pages,
        it2.videoId = v ∧ it2.publishedAt.take 4 = y) := by
    intro y v
    rw [get_videos_by_year, fetchLoop_eq, inBucket_processPage]
    constructor
    · rintro (h | h)
      · exact absurd h inBucket_nil
      · exact h
    · exact Or.inr
  intro it hit
  constructor
  · exact (hchar _ _).mpr ⟨it, hit, rfl, rfl⟩
  · intro y hy
    obtain ⟨it2, hit2, hid, hy2⟩ := (hchar y it.videoId).mp hy
    have heq : it2 = it := List.inj_on_of_nodup_map hnd hit2 hit hid
    rw [← hy2, heq]

theorem c6_witness :
    ((consumedItems [.ok [itemW1]]).map PlaylistItem.videoId).Nodup ∧
    inBucket (get_videos_by_year [.ok [itemW1]])
      (itemW1.publishedAt.take 4) itemW1.videoId :=
  ⟨by decide,
    (c6_get_videos_by_year_unique_bucket [.ok [itemW1]] (by decide) itemW1
      (by decide)).1⟩

/-! ## TokenLifecycleManager: `get_authenticated_services`
(src/scrapperv1.py lines 84-166)

The credential-handling prefix of the function is a pure decision tree over
the environment: whether the token file exists, what loading it yields
(`none` models the caught exception of lines 111-112), whether
`creds.refresh(Request())` succeeds, whether the client-secrets file
exists, and what the interactive flow yields (`none` models a raised flow
exception).  The final `build(...)` calls only wrap the resulting
credential and are outside the model. -/

/-- The observable state of a loaded google credential: the `valid`,
`expired` and `refresh_token` attributes the function reads (a non-`None`
credential object is always truthy). -/
structure PyCreds where
  valid : Bool
  expired : Bool
  has_refresh_token : Bool
deriving DecidableEq

/-- A successful `creds.refresh(Request())` mutates the credential in place
into a valid, unexpired one, keeping its refresh token. -/
def refreshCreds (c : PyCreds) : PyCreds :=
  { valid := true, expired := false, has_refresh_token := c.has_refresh_token }

/-- The external facts `get_authenticated_services` consults. -/
structure AuthEnv where
  token_file_exists : Bool
  loaded : Option PyCreds
  refresh_ok : Bool
  client_secrets_exists : Bool
  flow_result : Option PyCreds
deriving DecidableEq

/-- What the function produced: the final credential, whether the token
file was written (`persisted`), and whether the interactive consent flow
ran (`used_flow`). -/
structure AuthResult where
  creds : PyCreds
  persisted : Bool
  used_flow : Bool
deriving DecidableEq

/-- Lines 123-149, the `if not creds:` branch: the interactive consent
flow.  It raises when the client-secrets file is missing (line 134) or the
flow itself fails (re-raised at line 149); after a successful flow the
token file is written (lines 143-145). -/
def runFlow (env : AuthEnv) : Except Unit AuthResult :=
  if env.client_secrets_exists = false then .error ()
  else
    match env.flow_result with
    | none => .error ()
    | some c => .ok { creds := c, persisted := true, used_flow := true }

/-- `get_authenticated_services(config)`: load a persisted credential if the
token file exists (a load exception is caught, leaving `creds = None`);
skip everything if it is valid; refresh in place when expired with a
refresh token (falling through to the flow only when the refresh raises);
run the consent flow only when `creds` is `None`.  Note the write of the
token file happens only inside `runFlow`: the refresh path returns without
persisting, and an invalid but non-refreshable credential is truthy, so it
skips the flow and is used as is. -/
def get_authenticated_services (env : AuthEnv) : Except Unit AuthResult :=
  match (if env.token_file_exists then env.loaded else none) with
  | none => runFlow env
  | some c =>
    if c.valid then
      .ok { creds := c, persisted := false, used_flow := false }
    else if c.expired && c.has_refresh_token then
      (if env.refresh_ok then
        .ok { creds := refreshCreds c, persisted := false, used_flow := false }
      else runFlow env)
    else
      .ok { creds := c, persisted := false, used_flow := false }

/-- The C2 counterexample environment: a persisted, expired credential with
a refresh token, and a refresh that succeeds. -/
def c2EnvW : AuthEnv :=
  { token_file_exists := true,
    loaded := some { valid := false, expired := true, has_refresh_token := true },
    refresh_ok := true,
    client_secrets_exists := true,
    flow_result := some { valid := true, expired := false, has_refresh_token := true } }

/-- C2 (counterexample).  In `c2EnvW` the credential is refreshed in place
successfully, the function succeeds — and the token file is NOT written
(`persisted = false`): the write at lines 144-145 sits inside the
`if not creds:` consent-flow branch, which a successful refresh skips.
This refutes the claim that the credential is persisted after every
successful in-place refresh. -/
theorem c2_counterexample_refresh_not_persisted :
    get_authenticated_services c2EnvW =
      .ok { creds := { valid := true, expired := false, has_refresh_token := true },
            persisted := false, used_flow := false } := by rfl

/-- C2 (amended).  `get_authenticated_services` persists the resulting
credential exactly when it was acquired through the interactive consent
flow: every successful consent-flow acquisition writes the token file, and
a successful in-place refresh of an expired credential does not. -/
theorem c2_persist_iff_flow (env : AuthEnv) (r : AuthResult)
    (h : get_authenticated_services env = .ok r) :
    r.persisted = r.used_flow := by
  unfold get_authenticated_services runFlow at h
  repeat' split at h
  all_goals
    first
      | (injection h with h2; subst h2; rfl)
      | injection h

theorem c2_witness :
    ({ creds := { valid := true, expired := false, has_refresh_token := true },
       persisted := true, used_flow := true } : AuthResult).persisted =
    ({ creds := { valid := true, expired := false, has_refresh_token := true },
       persisted := true, used_flow := true } : AuthResult).used_flow :=
  c2_persist_iff_flow
    { token_file_exists := false, loaded := none, refresh_ok := true,
      client_secrets_exists := true,
      flow_result := some { valid := true, expired := false, has_refresh_token := true } }
    _ (by rfl)

end Scrapper
